import Mathlib

/-!
Shallow embedding of `asmp.py` (ASMP — ArtStudia Manager Packets), a
package-manager CLI client built around three persisted JSON states:

* a package cache (`packages.json`): a list of package records plus a
  `last_updated` timestamp and a `client_version` stamp;
* an installed-package ledger (`installed_packages.json`): a list of
  installed records;
* a client configuration (`config.json`).

Python dict records are modelled as a fixed structure holding every field
the program reads or writes; a field the program reads with
`dict.get(k, default)` is modelled as the plain field with the default
standing for absence (`description` absent ≡ `""`, `tags` absent ≡ `[]`),
and fields that exist only after stamping are `Option`s.  File I/O is
modelled by passing states explicitly; read outcomes (missing file,
malformed JSON, parsed value) are the `FileRead` sum.  Network I/O is
modelled by passing the transport outcome (`Option ApiResponse`, `none`
standing for any of the transport exceptions `make_request` converts to
`None`) as an argument.  Time (`time.time()`) is an explicit `Nat`
argument.
-/

namespace ASMP

/-- `__version__` in asmp.py. -/
def asmpVersion : String := "0.1.0"

/-- One package record (a JSON dict in the source).  Fields the seeded
records carry plus the install-metadata fields added by
`save_installed_package`. -/
structure PackageRecord where
  name : String
  version : String
  description : String
  author : String
  license : String
  ptype : String
  tags : List String
  source : String
  source_type : String
  dependencies : List String
  installed_at : Option Nat
  installed_by : Option String
  rec_client_version : Option String
deriving DecidableEq, Repr

/-- The parsed content of `packages.json`. -/
structure CacheState where
  packages : List PackageRecord
  last_updated : Nat
  cache_client_version : String
deriving DecidableEq, Repr

/-- A parsed JSON response body, as the dict the server returns.  Absent
keys are `none`; `response.get("packages", [])` reads `packages.getD []`. -/
structure ApiResponse where
  success : Bool
  error : Option String
  packages : Option (List PackageRecord)
  package : Option PackageRecord
  download_url : Option String
  install_script : Option String
deriving DecidableEq, Repr

/-- Outcome of opening and JSON-parsing a file: the file is missing
(`FileNotFoundError`), present but not valid JSON (`JSONDecodeError`),
or parsed to a value. -/
inductive FileRead (α : Type) where
  | missing : FileRead α
  | malformed : FileRead α
  | parsed : α → FileRead α
deriving DecidableEq, Repr

/-- Python substring test `sub in hay` on strings: the character sequence
of `sub` is an infix of that of `hay`. -/
def strContains (hay sub : String) : Bool :=
  decide (sub.toList <:+: hay.toList)

/-- The match condition of `search_local` (asmp.py lines 166-169):
`query.lower() in pkg["name"].lower() or query.lower() in
pkg.get("description", "").lower() or query.lower() in
" ".join(pkg.get("tags", [])).lower()`. -/
def matchesLocal (query : String) (pkg : PackageRecord) : Bool :=
  strContains pkg.name.toLower query.toLower ||
  strContains pkg.description.toLower query.toLower ||
  strContains (String.intercalate " " pkg.tags).toLower query.toLower

/-- The accumulation loop of `search_local` (lines 165-171) over the
parsed `packages` list: keep, in order, the records matching the query. -/
def search_packages (packages : List PackageRecord) (query : String) :
    List PackageRecord :=
  packages.filter (fun pkg => matchesLocal query pkg)

/-- `ASMPClient.search_local` (lines 159-174): read `packages.json`, filter
its `packages`; `except Exception` turns ANY read failure into `[]`. -/
def search_local (file : FileRead CacheState) (query : String) :
    List PackageRecord :=
  match file with
  | .parsed d => search_packages d.packages query
  | .missing => []
  | .malformed => []

/-- One step of building the name-keyed Python dict in
`update_local_cache` (lines 183-185).  A Python dict assigned at an
existing key keeps that key's insertion position and replaces the value;
a new key is appended.  The dict is represented by its value list in
insertion order (the key of a value `p` is `p.name`). -/
def upsertRecord (l : List PackageRecord) (r : PackageRecord) :
    List PackageRecord :=
  if l.any (fun p => p.name == r.name) then
    l.map (fun p => if p.name == r.name then r else p)
  else l ++ [r]

/-- `{pkg["name"]: pkg for pkg in local_data.get("packages", [])}`
(line 183): build the dict from the stored list. -/
def dictByName (pkgs : List PackageRecord) : List PackageRecord :=
  pkgs.foldl upsertRecord []

/-- The package-list part of `update_local_cache` (lines 183-187): build
the dict from the existing list, assign each incoming record at its name,
take `list(local_packages.values())`. -/
def mergePackages (existing incoming : List PackageRecord) :
    List PackageRecord :=
  incoming.foldl upsertRecord (dictByName existing)

/-- `ASMPClient.update_local_cache` (lines 176-197) on the parsed cache
state (the successful read-modify-write path; the surrounding
`try/except` leaves the state unchanged on I/O failure).  Sets
`last_updated` to the current time and stamps `client_version`. -/
def update_local_cache (s : CacheState) (incoming : List PackageRecord)
    (now : Nat) : CacheState :=
  { packages := mergePackages s.packages incoming
    last_updated := now
    cache_client_version := asmpVersion }

/-- Whether `response and response.get("success")` holds for the outcome
of `make_request` (`none` = transport/parse failure returned as `None`). -/
def respSuccess : Option ApiResponse → Bool
  | some r => r.success
  | none => false

/-- `ASMPClient.search_remote` (lines 134-157) on the cache state, with
the network outcome passed in.  On success it extracts
`response.get("packages", [])`, merges into the cache and returns the
packages; otherwise it returns `search_local` on the (unchanged) cache.
Result: (returned package list, cache state after the call). -/
def search_remote (cache : CacheState) (resp : Option ApiResponse)
    (query : String) (now : Nat) : List PackageRecord × CacheState :=
  match resp with
  | some r =>
    if r.success then
      let pkgs := r.packages.getD []
      (pkgs, update_local_cache cache pkgs now)
    else (search_packages cache.packages query, cache)
  | none => (search_packages cache.packages query, cache)

/-- The install-metadata stamping in `save_installed_package`
(lines 291-293). -/
def stampInstall (info : PackageRecord) (now : Nat) : PackageRecord :=
  { info with
    installed_at := some now
    installed_by := some "asmp"
    rec_client_version := some asmpVersion }

/-- `ASMPClient.save_installed_package` (lines 283-297) on the ledger
list: drop every entry with the incoming record's name, stamp the
record, append, persist the whole list. -/
def save_installed_package (installed : List PackageRecord)
    (info : PackageRecord) (now : Nat) : List PackageRecord :=
  (installed.filter (fun p => !(p.name == info.name))) ++
    [stampInstall info now]

/-- `ASMPClient.get_installed_packages` (lines 299-305): only
`FileNotFoundError` is caught (→ `[]`); a present but malformed file
raises `JSONDecodeError`, which propagates to the caller
(`Except.error`). -/
def get_installed_packages (file : FileRead (List PackageRecord)) :
    Except String (List PackageRecord) :=
  match file with
  | .parsed l => .ok l
  | .missing => .ok []
  | .malformed => .error "json.decoder.JSONDecodeError"

/-- The `uninstall` branch of `main` (lines 457-467) on the ledger list:
find an entry by name; when absent, report failure and write nothing;
when present, write the list filtered by name and report success.
Result: (succeeded?, ledger state after the call). -/
def record_uninstall (installed : List PackageRecord) (name : String) :
    Bool × List PackageRecord :=
  match installed.find? (fun p => p.name == name) with
  | none => (false, installed)
  | some _ => (true, installed.filter (fun p => !(p.name == name)))

/-- `ASMPClient.get_package_info_remote` (lines 199-211) with the network
outcome passed in: `response.get("package")` on success, else `None`. -/
def get_package_info_remote (resp : Option ApiResponse) :
    Option PackageRecord :=
  match resp with
  | some r => if r.success then r.package else none
  | none => none

/-- `ASMPClient.download_and_install` (lines 249-281) on the ledger list.
The body simulates download, dependency installation and the install
script, then calls `save_installed_package` and returns `True`; any
exception raised by those simulated steps (which all precede the ledger
write) is caught and yields `False` with the ledger untouched.
`stepsRaise` says whether such an exception occurs. -/
def download_and_install (installed : List PackageRecord)
    (info : PackageRecord) (stepsRaise : Bool) (now : Nat) :
    Bool × List PackageRecord :=
  if stepsRaise then (false, installed)
  else (true, save_installed_package installed info now)

/-- `ASMPClient.install_package_remote` (lines 213-247) on the ledger
list, with the two network outcomes (package-info request, download
request) passed in.  Aborts with `False` when the package info is absent
or the download request fails; otherwise runs `download_and_install`. -/
def install_package_remote (installed : List PackageRecord)
    (infoResp dlResp : Option ApiResponse) (stepsRaise : Bool)
    (now : Nat) : Bool × List PackageRecord :=
  match get_package_info_remote infoResp with
  | none => (false, installed)
  | some info =>
    match dlResp with
    | some r =>
      if r.success then download_and_install installed info stepsRaise now
      else (false, installed)
    | none => (false, installed)

/-- The parsed content of `config.json` as written by `init_config`
(lines 52-57) and `update_server_url`. -/
structure ClientConfig where
  server_url : String
  auto_update : Bool
  timeout : Nat
  config_client_version : String
deriving DecidableEq, Repr

/-- The default configuration record `init_config` persists on first run
(lines 52-57): `timeout` defaults to 30. -/
def defaultConfig (base_url : String) : ClientConfig :=
  { server_url := base_url
    auto_update := true
    timeout := 30
    config_client_version := asmpVersion }

/-- The timeout (seconds) `make_request` passes to `session.post`
(line 117) when the client holds configuration `cfg`: the literal `30`.
`init_config` reads only `server_url` back from the persisted
configuration (line 50), so the persisted `timeout` field never reaches
the request. -/
def requestTimeout (_cfg : ClientConfig) : Nat := 30

/-- The first seeded record of `init_config` (lines 65-75). -/
def launcherUpdaterRecord : PackageRecord :=
  { name := "launcher_updater"
    version := "1.0.0"
    description := "Launcher and updater for ArtStudia applications"
    author := "ArtTeam"
    license := "MIT"
    ptype := "tool"
    tags := ["launcher", "updater", "gui"]
    source := "https://github.com/artteam9/launcher_updater.git"
    source_type := "git"
    dependencies := []
    installed_at := none
    installed_by := none
    rec_client_version := none }

/-- The second seeded record of `init_config` (lines 76-86). -/
def artutilsRecord : PackageRecord :=
  { name := "artutils"
    version := "1.2.0"
    description := "Utility functions for ArtTeam projects"
    author := "ArtTeam"
    license := "MIT"
    ptype := "library"
    tags := ["utilities", "helpers", "tools"]
    source := "artutils"
    source_type := "pypi"
    dependencies := []
    installed_at := none
    installed_by := none
    rec_client_version := none }

/-- The cache state `init_config` writes to `packages.json` when the file
does not exist (lines 62-92). -/
def initPackagesFile (now : Nat) : CacheState :=
  { packages := [launcherUpdaterRecord, artutilsRecord]
    last_updated := now
    cache_client_version := asmpVersion }

/-- The ledger `init_config` writes to `installed_packages.json` when the
file does not exist (lines 94-96): `json.dump([], f)`. -/
def initInstalledFile : List PackageRecord := []

/-- The list of names of a record list (the dict keys). -/
def namesOf (l : List PackageRecord) : List String :=
  l.map (fun p => p.name)

/-- First record with a given name (`find?` order = list order). -/
def findByName (l : List PackageRecord) (n : String) :
    Option PackageRecord :=
  l.find? (fun p => p.name == n)

/-- The last record with a given name in a list (last write). -/
def lastWithName (l : List PackageRecord) (n : String) :
    Option PackageRecord :=
  l.reverse.find? (fun p => p.name == n)

/-! ### Lemmas about the name-keyed dict operations -/

theorem any_name_eq_true {l : List PackageRecord} {n : String} :
    l.any (fun p => p.name == n) = true ↔ n ∈ namesOf l := by
  rw [List.any_eq_true]
  constructor
  · rintro ⟨p, hp, hb⟩
    exact List.mem_map.mpr ⟨p, hp, by simpa using hb⟩
  · intro hm
    obtain ⟨p, hp, he⟩ := List.mem_map.mp hm
    exact ⟨p, hp, by simp [he]⟩

theorem map_eq_self_of {l : List PackageRecord}
    {f : PackageRecord → PackageRecord} (h : ∀ p ∈ l, f p = p) :
    l.map f = l := by
  induction l with
  | nil => rfl
  | cons x xs ih =>
    simp only [List.map_cons, h x (by simp)]
    rw [ih (fun p hp => h p (by simp [hp]))]

theorem namesOf_append (l₁ l₂ : List PackageRecord) :
    namesOf (l₁ ++ l₂) = namesOf l₁ ++ namesOf l₂ := by
  simp [namesOf]

theorem namesOf_upsert_map (l : List PackageRecord) (r : PackageRecord) :
    namesOf (l.map (fun p => if p.name == r.name then r else p)) =
      namesOf l := by
  induction l with
  | nil => rfl
  | cons x xs ih =>
    by_cases h : x.name = r.name
    · simp [namesOf, h] at ih ⊢
      exact ih
    · simp [namesOf, h] at ih ⊢
      exact ih

theorem namesOf_upsert_nodup {l : List PackageRecord}
    (r : PackageRecord) (h : (namesOf l).Nodup) :
    (namesOf (upsertRecord l r)).Nodup := by
  unfold upsertRecord
  by_cases ha : l.any (fun p => p.name == r.name) = true
  · rw [if_pos ha, namesOf_upsert_map]
    exact h
  · rw [if_neg ha, namesOf_append]
    have hn : r.name ∉ namesOf l := fun hm => ha (any_name_eq_true.mpr hm)
    simp [namesOf, List.nodup_append]
    exact ⟨by simpa [namesOf] using h, by simpa [namesOf] using hn⟩

theorem namesOf_foldl_nodup (incoming : List PackageRecord) :
    ∀ acc : List PackageRecord, (namesOf acc).Nodup →
      (namesOf (incoming.foldl upsertRecord acc)).Nodup := by
  induction incoming with
  | nil => intro acc h; simpa using h
  | cons x xs ih =>
    intro acc h
    exact ih (upsertRecord acc x) (namesOf_upsert_nodup x h)

theorem namesOf_dictByName_nodup (l : List PackageRecord) :
    (namesOf (dictByName l)).Nodup :=
  namesOf_foldl_nodup l [] (by simp [namesOf])

theorem foldl_upsert_of_disjoint (incoming : List PackageRecord) :
    ∀ acc : List PackageRecord, (namesOf (acc ++ incoming)).Nodup →
      incoming.foldl upsertRecord acc = acc ++ incoming := by
  induction incoming with
  | nil => intro acc _; simp
  | cons x xs ih =>
    intro acc h
    have hx : x.name ∉ namesOf acc := by
      rw [namesOf_append] at h
      have := (List.nodup_append.mp h).2.2
      intro hm
      exact this hm (by simp [namesOf])
    have hstep : upsertRecord acc x = acc ++ [x] := by
      unfold upsertRecord
      rw [if_neg (fun ha => hx (any_name_eq_true.mp ha))]
    rw [List.foldl_cons, hstep, ih (acc ++ [x]) (by simpa using h)]
    simp

theorem dictByName_of_nodup {l : List PackageRecord}
    (h : (namesOf l).Nodup) : dictByName l = l := by
  have := foldl_upsert_of_disjoint l [] (by simpa [namesOf] using h)
  simpa [dictByName] using this

theorem upsert_idem (l : List PackageRecord) (r : PackageRecord) :
    upsertRecord (upsertRecord l r) r = upsertRecord l r := by
  unfold upsertRecord
  by_cases ha : l.any (fun p => p.name == r.name) = true
  · rw [if_pos ha]
    obtain ⟨p, hp, hpn⟩ := List.any_eq_true.mp ha
    have ha2 : (l.map (fun p => if p.name == r.name then r else p)).any
        (fun p => p.name == r.name) = true := by
      refine List.any_eq_true.mpr ⟨r, ?_, by simp⟩
      exact List.mem_map.mpr ⟨p, hp, by simp [hpn]⟩
    rw [if_pos ha2, List.map_map]
    refine List.map_congr_left (fun q _ => ?_)
    simp only [Function.comp]
    by_cases hq : q.name = r.name
    · simp [hq]
    · simp [hq]
  · rw [if_neg ha]
    have ha2 : (l ++ [r]).any (fun p => p.name == r.name) = true :=
      List.any_eq_true.mpr ⟨r, by simp, by simp⟩
    rw [if_pos ha2, List.map_append]
    have hmap : l.map (fun p => if p.name == r.name then r else p) = l := by
      refine map_eq_self_of (fun q hq => ?_)
      cases hb : q.name == r.name with
      | false => simp [hb]
      | true => exact absurd (List.any_eq_true.mpr ⟨q, hq, hb⟩) ha
    rw [hmap]
    simp

theorem beq_name_false {a b : String} (h : a ≠ b) : (a == b) = false := by
  cases hb : a == b with
  | false => rfl
  | true => exact absurd (by simpa using hb) h

theorem find?_map_replace (l : List PackageRecord) (r : PackageRecord)
    (ha : l.any (fun p => p.name == r.name) = true) :
    (l.map (fun p => if p.name == r.name then r else p)).find?
      (fun p => p.name == r.name) = some r := by
  induction l with
  | nil => simp at ha
  | cons x xs ih =>
    by_cases hx : x.name = r.name
    · rw [List.map_cons, if_pos (by simp [hx])]
      exact List.find?_cons_of_pos _ (by simp)
    · have hxb : (x.name == r.name) = false := beq_name_false hx
      have ha' : xs.any (fun p => p.name == r.name) = true := by
        simpa [hxb] using ha
      rw [List.map_cons, if_neg (by simp [hxb]),
        List.find?_cons_of_neg _ (by simp [hxb])]
      exact ih ha'

theorem findByName_upsert_self (l : List PackageRecord)
    (r : PackageRecord) :
    findByName (upsertRecord l r) r.name = some r := by
  unfold upsertRecord findByName
  by_cases ha : l.any (fun p => p.name == r.name) = true
  · rw [if_pos ha]
    exact find?_map_replace l r ha
  · rw [if_neg ha, List.find?_append]
    have hnone : l.find? (fun p => p.name == r.name) = none := by
      rw [List.find?_eq_none]
      intro x hx hb
      exact ha (List.any_eq_true.mpr ⟨x, hx, hb⟩)
    rw [hnone]
    simp [List.find?]

theorem find?_map_replace_other (l : List PackageRecord)
    (r : PackageRecord) {n : String} (hn : n ≠ r.name) :
    (l.map (fun p => if p.name == r.name then r else p)).find?
      (fun p => p.name == n) = l.find? (fun p => p.name == n) := by
  induction l with
  | nil => rfl
  | cons x xs ih =>
    by_cases hx : x.name = r.name
    · have h1 : (r.name == n) = false := beq_name_false (Ne.symm hn)
      have h2 : (x.name == n) = false := beq_name_false (hx ▸ Ne.symm hn)
      rw [List.map_cons, if_pos (by simp [hx]),
        List.find?_cons_of_neg _ (by simp [h1]),
        List.find?_cons_of_neg _ (by simp [h2])]
      exact ih
    · rw [List.map_cons, if_neg (by simp [hx])]
      cases hb : x.name == n with
      | true =>
        rw [List.find?_cons_of_pos _ (by simpa using hb),
          List.find?_cons_of_pos _ (by simpa using hb)]
      | false =>
        rw [List.find?_cons_of_neg _ (by simp [hb]),
          List.find?_cons_of_neg _ (by simp [hb])]
        exact ih

theorem findByName_upsert_other (l : List PackageRecord)
    (r : PackageRecord) {n : String} (hn : n ≠ r.name) :
    findByName (upsertRecord l r) n = findByName l n := by
  unfold upsertRecord findByName
  by_cases ha : l.any (fun p => p.name == r.name) = true
  · rw [if_pos ha]
    exact find?_map_replace_other l r hn
  · rw [if_neg ha, List.find?_append]
    have h1 : (r.name == n) = false := beq_name_false (Ne.symm hn)
    simp [List.find?, h1]

theorem findByName_foldl_upsert (incoming : List PackageRecord)
    (n : String) :
    ∀ acc : List PackageRecord,
      findByName (incoming.foldl upsertRecord acc) n =
        (lastWithName incoming n).or (findByName acc n) := by
  induction incoming with
  | nil => intro acc; simp [lastWithName, List.find?]
  | cons x xs ih =>
    intro acc
    rw [List.foldl_cons, ih]
    have hlast : lastWithName (x :: xs) n =
        (lastWithName xs n).or ([x].find? (fun p => p.name == n)) := by
      unfold lastWithName
      rw [List.reverse_cons, List.find?_append]
    rw [hlast, Option.or_assoc]
    cases hb : x.name == n with
    | true =>
      have hxn : x.name = n := by simpa using hb
      have hself : findByName (upsertRecord acc x) n = some x := by
        rw [← hxn]
        exact findByName_upsert_self acc x
      rw [hself]
      simp [List.find?, hb]
    | false =>
      have hother : findByName (upsertRecord acc x) n = findByName acc n :=
        findByName_upsert_other acc x
          (fun h => by simp [h.symm] at hb)
      rw [hother]
      simp [List.find?, hb]

theorem mem_upsert_of_other {e : PackageRecord}
    {l : List PackageRecord} (r : PackageRecord) (he : e ∈ l)
    (hne : e.name ≠ r.name) : e ∈ upsertRecord l r := by
  unfold upsertRecord
  by_cases ha : l.any (fun p => p.name == r.name) = true
  · rw [if_pos ha]
    have : (fun p => if p.name == r.name then r else p) e = e := by
      simp [beq_name_false hne]
    exact this ▸ List.mem_map_of_mem _ he
  · rw [if_neg ha]
    exact List.mem_append_left _ he

theorem mem_foldl_upsert_of_other (incoming : List PackageRecord)
    {e : PackageRecord} (hni : e.name ∉ namesOf incoming) :
    ∀ acc : List PackageRecord, e ∈ acc →
      e ∈ incoming.foldl upsertRecord acc := by
  induction incoming with
  | nil => intro acc he; simpa using he
  | cons x xs ih =>
    intro acc he
    have hx : e.name ≠ x.name := fun h => hni (by simp [namesOf, h])
    have hni' : e.name ∉ namesOf xs := fun h => hni (by simp [namesOf] at h ⊢; exact Or.inr h)
    exact ih hni' (upsertRecord acc x) (mem_upsert_of_other x he hx)

/-! ### Claim theorems -/

/-- Claim C1: for every search query, if the remote search fails in any way
(transport error, timeout, malformed response — all of which
`make_request` returns as `None` — or a response with `success: false`),
then `search_remote` returns exactly what `search_local` returns on the
current cache state, and the cache is not mutated by the call. -/
theorem asmp_C1_search_fallback (cache : CacheState)
    (resp : Option ApiResponse) (query : String) (now : Nat)
    (h : respSuccess resp = false) :
    search_remote cache resp query now =
      (search_packages cache.packages query, cache) := by
  cases resp with
  | none => rfl
  | some r =>
    have hs : r.success = false := by simpa [respSuccess] using h
    simp [search_remote, hs]

/-- A concrete `success: false` server response. -/
def failedResponse : ApiResponse :=
  { success := false
    error := some "database offline"
    packages := none
    package := none
    download_url := none
    install_script := none }

/-- Witness for C1 at a concrete failing transport (`none`) and a
concrete `success: false` response. -/
theorem asmp_C1_search_fallback_witness :
    (respSuccess none = false ∧
      search_remote (initPackagesFile 0) none "util" 5 =
        (search_packages (initPackagesFile 0).packages "util",
          initPackagesFile 0)) ∧
    (respSuccess (some failedResponse) = false ∧
      search_remote (initPackagesFile 0) (some failedResponse) "util" 5 =
        (search_packages (initPackagesFile 0).packages "util",
          initPackagesFile 0)) :=
  ⟨⟨rfl, asmp_C1_search_fallback (initPackagesFile 0) none "util" 5 rfl⟩,
    ⟨rfl, asmp_C1_search_fallback (initPackagesFile 0)
      (some failedResponse) "util" 5 rfl⟩⟩

/-- Claim C2: merging the same record twice is idempotent — for every
cache state, record `r` and call times, `update_local_cache` with `[r]`
twice yields the state a single `update_local_cache` with `[r]` (made at
the time of the last call) yields. -/
theorem asmp_C2_merge_idempotent (s : CacheState) (r : PackageRecord)
    (t₁ t₂ : Nat) :
    update_local_cache (update_local_cache s [r] t₁) [r] t₂ =
      update_local_cache s [r] t₂ := by
  have hp : mergePackages (mergePackages s.packages [r]) [r] =
      mergePackages s.packages [r] := by
    unfold mergePackages
    simp only [List.foldl_cons, List.foldl_nil]
    rw [dictByName_of_nodup
      (namesOf_upsert_nodup r (namesOf_dictByName_nodup s.packages)),
      upsert_idem]
  simp only [update_local_cache]
  rw [hp]

/-- Claim C3: starting from a cache with at most one record per name,
after `update_local_cache` the cache still has at most one record per
name; each incoming name maps (first record found by name) to the last
incoming record with that name, and every existing record whose name is
not among the incoming names is still present unchanged. -/
theorem asmp_C3_merge_invariants (s : CacheState)
    (incoming : List PackageRecord) (now : Nat)
    (h : (namesOf s.packages).Nodup) :
    (namesOf (update_local_cache s incoming now).packages).Nodup ∧
    (∀ n, n ∈ namesOf incoming →
      findByName (update_local_cache s incoming now).packages n =
        lastWithName incoming n) ∧
    (∀ e, e ∈ s.packages → e.name ∉ namesOf incoming →
      e ∈ (update_local_cache s incoming now).packages) := by
  refine ⟨?_, ?_, ?_⟩
  · show (namesOf (mergePackages s.packages incoming)).Nodup
    unfold mergePackages
    exact namesOf_foldl_nodup incoming _ (namesOf_dictByName_nodup _)
  · intro n hn
    show findByName (mergePackages s.packages incoming) n =
      lastWithName incoming n
    unfold mergePackages
    rw [findByName_foldl_upsert]
    have hsome : (lastWithName incoming n).isSome := by
      unfold lastWithName
      rw [List.find?_isSome]
      obtain ⟨p, hp, he⟩ := List.mem_map.mp hn
      exact ⟨p, List.mem_reverse.mpr hp, by simp [he]⟩
    cases hlast : lastWithName incoming n with
    | some q => simp
    | none => rw [hlast] at hsome; simp at hsome
  · intro e he hni
    show e ∈ mergePackages s.packages incoming
    unfold mergePackages
    rw [dictByName_of_nodup h]
    exact mem_foldl_upsert_of_other incoming hni s.packages he

/-- Witness for C3 at the seeded cache (nodup names) and an incoming list
that overwrites one name and adds a new one, with a duplicate incoming
name exercising last-write-wins. -/
theorem asmp_C3_merge_invariants_witness :
    (namesOf (initPackagesFile 0).packages).Nodup ∧
    ((namesOf (update_local_cache (initPackagesFile 0)
        [{ artutilsRecord with version := "9.0.0" },
          { launcherUpdaterRecord with name := "newpkg" },
          { artutilsRecord with version := "9.9.9" }] 7).packages).Nodup ∧
    (∀ n, n ∈ namesOf [{ artutilsRecord with version := "9.0.0" },
        { launcherUpdaterRecord with name := "newpkg" },
        { artutilsRecord with version := "9.9.9" }] →
      findByName (update_local_cache (initPackagesFile 0)
          [{ artutilsRecord with version := "9.0.0" },
            { launcherUpdaterRecord with name := "newpkg" },
            { artutilsRecord with version := "9.9.9" }] 7).packages n =
        lastWithName [{ artutilsRecord with version := "9.0.0" },
          { launcherUpdaterRecord with name := "newpkg" },
          { artutilsRecord with version := "9.9.9" }] n) ∧
    (∀ e, e ∈ (initPackagesFile 0).packages →
      e.name ∉ namesOf [{ artutilsRecord with version := "9.0.0" },
        { launcherUpdaterRecord with name := "newpkg" },
        { artutilsRecord with version := "9.9.9" }] →
      e ∈ (update_local_cache (initPackagesFile 0)
          [{ artutilsRecord with version := "9.0.0" },
            { launcherUpdaterRecord with name := "newpkg" },
            { artutilsRecord with version := "9.9.9" }] 7).packages)) :=
  ⟨by decide,
    asmp_C3_merge_invariants (initPackagesFile 0)
      [{ artutilsRecord with version := "9.0.0" },
        { launcherUpdaterRecord with name := "newpkg" },
        { artutilsRecord with version := "9.9.9" }] 7 (by decide)⟩

/-- Counterexample to claim C4: it is not the case that for every
persisted configuration the request timeout equals the configured
timeout value — a configuration persisting `timeout = 60` still gets the
hard-coded request timeout of 30 seconds, because `make_request` passes
the literal `30` and `init_config` reads only `server_url` back. -/
theorem asmp_C4_counterexample :
    ¬ ∀ cfg : ClientConfig, requestTimeout cfg = cfg.timeout := by
  intro h
  have h60 := h
    { server_url := "https://api.artstudia.com"
      auto_update := true
      timeout := 60
      config_client_version := asmpVersion }
  simp [requestTimeout] at h60

/-- Amended claim C4: every request uses the fixed timeout of 30 seconds,
which coincides with the default configuration's timeout, regardless of
the configuration the client holds. -/
theorem asmp_C4_timeout_fixed (cfg : ClientConfig) (url : String) :
    requestTimeout cfg = 30 ∧ (defaultConfig url).timeout = 30 :=
  ⟨rfl, rfl⟩

/-- Claim C5: `save_installed_package` removes any existing entry with
the incoming name, stamps `installed_at`, `installed_by = "asmp"` and
`client_version`, then appends and persists; installing the same name
twice leaves exactly one entry for that name, carrying the
last-installed version. -/
theorem asmp_C5_record_install (ledger : List PackageRecord)
    (r₁ r₂ : PackageRecord) (t₁ t₂ : Nat) (h : r₁.name = r₂.name) :
    save_installed_package ledger r₁ t₁ =
      (ledger.filter (fun p => !(p.name == r₁.name))) ++
        [stampInstall r₁ t₁] ∧
    (stampInstall r₂ t₂).installed_at = some t₂ ∧
    (stampInstall r₂ t₂).installed_by = some "asmp" ∧
    (stampInstall r₂ t₂).rec_client_version = some asmpVersion ∧
    (stampInstall r₂ t₂).version = r₂.version ∧
    (save_installed_package (save_installed_package ledger r₁ t₁)
        r₂ t₂).filter (fun p => p.name == r₁.name) =
      [stampInstall r₂ t₂] := by
  refine ⟨rfl, rfl, rfl, rfl, rfl, ?_⟩
  rw [h]
  show (((save_installed_package ledger r₁ t₁).filter
      (fun p => !(p.name == r₂.name))) ++ [stampInstall r₂ t₂]).filter
      (fun p => p.name == r₂.name) = [stampInstall r₂ t₂]
  rw [List.filter_append, List.filter_filter]
  have h1 : (save_installed_package ledger r₁ t₁).filter
      (fun a => (a.name == r₂.name) && !(a.name == r₂.name)) = [] := by
    simp
  have h2 : List.filter (fun p => p.name == r₂.name)
      [stampInstall r₂ t₂] = [stampInstall r₂ t₂] := by
    simp [stampInstall]
  rw [h1, h2, List.nil_append]

/-- Witness for C5: installing "artutils" at version 1.2.0 then at
version 9.9.9 leaves exactly one stamped "artutils" entry at 9.9.9. -/
theorem asmp_C5_record_install_witness :
    artutilsRecord.name =
        ({ artutilsRecord with version := "9.9.9" } : PackageRecord).name ∧
      (save_installed_package
          (save_installed_package [launcherUpdaterRecord] artutilsRecord 3)
          { artutilsRecord with version := "9.9.9" } 8).filter
        (fun p => p.name == artutilsRecord.name) =
        [stampInstall { artutilsRecord with version := "9.9.9" } 8] :=
  ⟨rfl, ((asmp_C5_record_install [launcherUpdaterRecord] artutilsRecord
    { artutilsRecord with version := "9.9.9" } 3 8 rfl).2.2.2.2.2)⟩

/-- Claim C6: the uninstall flow succeeds and persists the by-name
filtered ledger exactly when an entry with the requested name exists;
when no entry matches, it reports failure and performs no write (the
ledger is returned untouched). -/
theorem asmp_C6_record_uninstall (installed : List PackageRecord)
    (pkgName : String) :
    ((∃ p ∈ installed, p.name = pkgName) →
      record_uninstall installed pkgName =
        (true, installed.filter (fun p => !(p.name == pkgName)))) ∧
    ((∀ p ∈ installed, p.name ≠ pkgName) →
      record_uninstall installed pkgName = (false, installed)) := by
  constructor
  · rintro ⟨p, hp, he⟩
    unfold record_uninstall
    cases hf : installed.find? (fun q => q.name == pkgName) with
    | some q => rfl
    | none =>
      rw [List.find?_eq_none] at hf
      exact absurd (by simp [he]) (hf p hp)
  · intro hall
    unfold record_uninstall
    have hf : installed.find? (fun q => q.name == pkgName) = none := by
      rw [List.find?_eq_none]
      intro q hq hb
      exact hall q hq (by simpa using hb)
    rw [hf]

/-- Witness for C6: uninstalling a present name persists the filtered
ledger; uninstalling an unknown name reports false and leaves the ledger
untouched. -/
theorem asmp_C6_record_uninstall_witness :
    record_uninstall [artutilsRecord] "artutils" = (true, []) ∧
      record_uninstall [artutilsRecord] "nope" =
        (false, [artutilsRecord]) := by
  constructor
  · rw [(asmp_C6_record_uninstall [artutilsRecord] "artutils").1
      ⟨artutilsRecord, by simp, rfl⟩]
    decide
  · exact (asmp_C6_record_uninstall [artutilsRecord] "nope").2 (by decide)

/-- Claim C7: if installation fails at any stage before the ledger write
— the package-info fetch fails, the download request fails, or an
exception occurs during the simulated download/dependency-install steps
— then the install flow returns `false` and the installed ledger is not
mutated. -/
theorem asmp_C7_install_failure_no_mutation
    (installed : List PackageRecord) (infoResp dlResp : Option ApiResponse)
    (stepsRaise : Bool) (now : Nat)
    (h : get_package_info_remote infoResp = none ∨
      respSuccess dlResp = false ∨ stepsRaise = true) :
    install_package_remote installed infoResp dlResp stepsRaise now =
      (false, installed) := by
  unfold install_package_remote
  cases hinfo : get_package_info_remote infoResp with
  | none => rfl
  | some info =>
    rcases h with h | h | h
    · rw [hinfo] at h
      exact absurd h (by simp)
    · cases dlResp with
      | none => rfl
      | some r =>
        have hs : r.success = false := by simpa [respSuccess] using h
        simp [hs]
    · cases dlResp with
      | none => rfl
      | some r =>
        by_cases hs : r.success
        · simp [hs, download_and_install, h]
        · simp [hs]

/-- Witness for C7 at three concrete failures: info fetch fails
(transport down), download request answers `success: false`, and the
simulated install steps raise. -/
theorem asmp_C7_install_failure_no_mutation_witness :
    ((get_package_info_remote none = none ∨ respSuccess none = false ∨
        false = true) ∧
      install_package_remote [launcherUpdaterRecord] none none false 9 =
        (false, [launcherUpdaterRecord])) ∧
    ((get_package_info_remote (some failedResponse) = none ∨
        respSuccess (some failedResponse) = false ∨ false = true) ∧
      install_package_remote [launcherUpdaterRecord]
          (some { failedResponse with
            success := true
            package := some artutilsRecord })
          (some failedResponse) false 9 =
        (false, [launcherUpdaterRecord])) ∧
    ((get_package_info_remote none = none ∨
        respSuccess (some { failedResponse with success := true }) = false ∨
        true = true) ∧
      install_package_remote [launcherUpdaterRecord]
          (some { failedResponse with
            success := true
            package := some artutilsRecord })
          (some { failedResponse with success := true }) true 9 =
        (false, [launcherUpdaterRecord])) :=
  ⟨⟨Or.inl rfl,
      asmp_C7_install_failure_no_mutation [launcherUpdaterRecord]
        none none false 9 (Or.inl rfl)⟩,
    ⟨Or.inr (Or.inl rfl),
      asmp_C7_install_failure_no_mutation [launcherUpdaterRecord]
        (some { failedResponse with
          success := true
          package := some artutilsRecord })
        (some failedResponse) false 9 (Or.inr (Or.inl rfl))⟩,
    ⟨Or.inr (Or.inr rfl),
      asmp_C7_install_failure_no_mutation [launcherUpdaterRecord]
        (some { failedResponse with
          success := true
          package := some artutilsRecord })
        (some { failedResponse with success := true }) true 9
        (Or.inr (Or.inr rfl))⟩⟩

/-- The spec's wording of the local-search match (spec §4.2/§8): the
lowercased query is a substring of the lowercased name, or of the
lowercased description, or of the lowercased space-joined tag list.
Stated independently of `matchesLocal` for comparison with the source. -/
def specMatch (query : String) (pkg : PackageRecord) : Prop :=
  query.toLower.toList <:+: pkg.name.toLower.toList ∨
  query.toLower.toList <:+: pkg.description.toLower.toList ∨
  query.toLower.toList <:+:
    (String.intercalate " " pkg.tags).toLower.toList

instance (query : String) (pkg : PackageRecord) :
    Decidable (specMatch query pkg) := by
  unfold specMatch
  infer_instance

theorem matchesLocal_eq_decide (query : String) (pkg : PackageRecord) :
    matchesLocal query pkg = decide (specMatch query pkg) := by
  simp [matchesLocal, strContains, specMatch, Bool.or_assoc]

/-- Claim C8: `search_local`'s filtering returns exactly the records
matching the spec predicate (case-insensitive substring against name,
description, or space-joined tags), as a sublist of the stored list
(insertion order, no ranking). -/
theorem asmp_C8_search_local_matches (packages : List PackageRecord)
    (query : String) :
    (∀ p, p ∈ search_packages packages query ↔
      p ∈ packages ∧ specMatch query p) ∧
    search_packages packages query =
      packages.filter (fun p => decide (specMatch query p)) ∧
    (search_packages packages query).Sublist packages := by
  have hfil : search_packages packages query =
      packages.filter (fun p => decide (specMatch query p)) := by
    unfold search_packages
    exact List.filter_congr (fun p _ => matchesLocal_eq_decide query p)
  refine ⟨?_, hfil, ?_⟩
  · intro p
    rw [hfil, List.mem_filter]
    simp
  · rw [hfil]
    exact List.filter_sublist packages

/-- Claim C9: on first run (no cache file, no ledger file), `init_config`
writes a cache of exactly the two built-in records — the
launcher/updater tool and the utilities library — and an empty installed
ledger. -/
theorem asmp_C9_first_run_bootstrap (now : Nat) :
    (initPackagesFile now).packages.length = 2 ∧
    (initPackagesFile now).packages =
      [launcherUpdaterRecord, artutilsRecord] ∧
    launcherUpdaterRecord.name = "launcher_updater" ∧
    launcherUpdaterRecord.ptype = "tool" ∧
    artutilsRecord.name = "artutils" ∧
    artutilsRecord.ptype = "library" ∧
    initInstalledFile = [] :=
  ⟨rfl, rfl, rfl, rfl, rfl, rfl, rfl⟩

/-- Claim C10: reading the installed ledger tolerates only a missing
file (`FileNotFoundError` → `[]`); a present but malformed ledger file
propagates the JSON decode error to the caller — unlike the cache read
in `search_local`, whose `except Exception` turns every failure into an
empty result. -/
theorem asmp_C10_ledger_read_errors (query : String) :
    get_installed_packages FileRead.missing = Except.ok [] ∧
    get_installed_packages FileRead.malformed =
      Except.error "json.decoder.JSONDecodeError" ∧
    (∀ e : List PackageRecord,
      get_installed_packages FileRead.malformed ≠ Except.ok e) ∧
    search_local FileRead.missing query = [] ∧
    search_local FileRead.malformed query = [] :=
  ⟨rfl, rfl, fun e h => by simp [get_installed_packages] at h, rfl, rfl⟩

end ASMP
